import Mathlib

/-!
# TitanInfer — verification of spec claims against a shallow embedding

This file embeds the numeric kernels, layers, serializer/parser, error
translation and inference-engine state machine of the TitanInfer
inference engine, and proves or refutes the spec's claims about them.

Modelling conventions:
* IEEE-754 single-precision arithmetic is modelled by exact rational
  arithmetic (`ℚ`); `std::round` is modelled as rounding half away from
  zero; `-∞` (used by max-pooling) is modelled by `⊥ : WithBot ℚ`.
* `std::exp` is an uninterpreted strictly positive function parameter.
* Raw `float` bit patterns written by the serializer are modelled as
  `Nat` values `< 2^32`, written to the byte stream in little-endian
  order exactly as the x86 memory image is.
* C++ exceptions become `Except` values; the exception *class*
  (`std::runtime_error` vs `std::invalid_argument`) is tracked because
  the model-handle error translation dispatches on it.
-/

namespace TitanInfer

/- ================================================================
   §1  Convolution geometry — src/unnamed/part_018 (conv_ops.cpp)
   ================================================================ -/

/-- `ops::conv_output_size`: output spatial size
`(input + 2·padding − kernel) / stride + 1`; the C++ throws
`std::invalid_argument` when `stride = 0` or when
`input + 2·padding < kernel`, modelled as `none`. -/
def conv_output_size (input kernel stride padding : ℕ) : Option ℕ :=
  if stride = 0 then none
  else if input + 2 * padding < kernel then none
  else some ((input + 2 * padding - kernel) / stride + 1)

/-- `ops::compute_same_padding`: per-side SAME padding.
`out = ⌈input/stride⌉`, `needed = (out−1)·stride + kernel`, and the
returned per-side pad is `(needed − input)/2` when `needed > input`,
else `0`. -/
def compute_same_padding (input kernel stride : ℕ) : ℕ :=
  let out_size := (input + stride - 1) / stride
  let needed := (out_size - 1) * stride + kernel
  if input < needed then (needed - input) / 2 else 0

/- ================================================================
   §2  Pooling layers — src/unnamed/part_021 (pooling_layers.cpp)

   A pooled channel is addressed through the raw row-major data of
   one channel (`ch : List ℚ`).  The C++ loop nest writes each output
   index `oh*out_W + ow` exactly once, so `pool_single` is embedded as
   the per-output-element function of `(oh, ow)`.
   Max-pooling starts its accumulator at `-∞`, modelled as
   `⊥ : WithBot ℚ`; only in-bounds positions update it.
   ================================================================ -/

/-- Whether kernel offset `(kh, kw)` of output position `(oh, ow)` hits an
in-bounds input pixel (`MaxPool2DLayer::pool_single` / `AvgPool2DLayer::pool_single`
bounds test: `ih >= padding && iw >= padding && ih-padding < H && iw-padding < W`). -/
def poolInBounds (s p H W oh ow kh kw : ℕ) : Prop :=
  p ≤ oh * s + kh ∧ p ≤ ow * s + kw ∧ oh * s + kh - p < H ∧ ow * s + kw - p < W

instance (s p H W oh ow kh kw : ℕ) : Decidable (poolInBounds s p H W oh ow kh kw) := by
  unfold poolInBounds; infer_instance

/-- `MaxPool2DLayer::pool_single`, one output element: fold `max` over the
`k×k` window in loop order (`kh` outer, `kw` inner), starting from `-∞`;
out-of-bounds (padded) positions never update the accumulator. -/
def maxPoolElem (k s p H W : ℕ) (ch : List ℚ) (oh ow : ℕ) : WithBot ℚ :=
  (List.range k).foldl (fun acc kh =>
    (List.range k).foldl (fun acc2 kw =>
      if poolInBounds s p H W oh ow kh kw then
        max acc2 ((ch.getD ((oh * s + kh - p) * W + (ow * s + kw - p)) 0 : ℚ) : WithBot ℚ)
      else acc2) acc) ⊥

/-- `AvgPool2DLayer::pool_single`, one output element: accumulate the
in-bounds window values in loop order starting from `0`, then multiply by
`inv_area = 1 / (kernel_size²)`. -/
def avgPoolElem (k s p H W : ℕ) (ch : List ℚ) (oh ow : ℕ) : ℚ :=
  ((List.range k).foldl (fun acc kh =>
    (List.range k).foldl (fun acc2 kw =>
      if poolInBounds s p H W oh ow kh kw then
        acc2 + ch.getD ((oh * s + kh - p) * W + (ow * s + kw - p)) 0
      else acc2) acc) 0) * (1 / (k * k : ℚ))

/-- The spec's description of an avg-pool output element: the sum of the
in-bounds input elements of the window (padding contributing 0), divided by
the full kernel area `k²` — not by the count of valid positions. -/
def avgPoolElemSpec (k s p H W : ℕ) (ch : List ℚ) (oh ow : ℕ) : ℚ :=
  (∑ kh ∈ Finset.range k, ∑ kw ∈ Finset.range k,
    if poolInBounds s p H W oh ow kh kw then
      ch.getD ((oh * s + kh - p) * W + (ow * s + kw - p)) 0
    else 0) / (k * k : ℚ)

/- ================================================================
   General fold helpers
   ================================================================ -/

/-- Folding `acc + g i` over `List.range n` is `a` plus the sum of `g`. -/
theorem foldl_range_add (g : ℕ → ℚ) (n : ℕ) : ∀ a : ℚ,
    (List.range n).foldl (fun acc i => acc + g i) a = a + ∑ i ∈ Finset.range n, g i := by
  induction n with
  | zero => simp
  | succ m ih =>
    intro a
    rw [List.range_succ, List.foldl_append, ih, Finset.sum_range_succ]
    simp only [List.foldl_cons, List.foldl_nil]
    ring

/-- A fold whose step fixes every accumulator is the identity. -/
theorem foldl_fixed {α β : Type} (step : β → α → β) (l : List α)
    (h : ∀ x ∈ l, ∀ a, step a x = a) : ∀ a, l.foldl step a = a := by
  induction l with
  | nil => intro a; rfl
  | cons x xs ih =>
    intro a
    rw [List.foldl_cons, h x (by simp)]
    exact ih (fun y hy b => h y (by simp [hy]) b) a

/- ================================================================
   §3  Numeric kernels — src/src/ops/matrix_ops.cpp
   Flat row-major data as `List ℚ`; reads use `getD _ 0` (the C++
   reads are always in bounds for well-shaped tensors).
   ================================================================ -/

/-- `ops::matvec`: `y[i] = Σ_j A[i·N+j] · x[j]`, accumulated left-to-right. -/
def matvec (M N : ℕ) (A x : List ℚ) : List ℚ :=
  (List.range M).map (fun i =>
    (List.range N).foldl (fun sum j => sum + A.getD (i * N + j) 0 * x.getD j 0) 0)

/-- `ops::transpose` of an `M×N` matrix: element `(j,i)` of the result is
`A[i·N+j]`. -/
def transpose (M N : ℕ) (A : List ℚ) : List ℚ :=
  (List.range N).flatMap (fun j => (List.range M).map (fun i => A.getD (i * N + j) 0))

/-- `ops::matmul` (naive reference): `C[i·N+j] = Σ_k A[i·K+k] · B[k·N+j]`,
inner sum accumulated left-to-right over `k`. -/
def matmul (M K N : ℕ) (A B : List ℚ) : List ℚ :=
  (List.range M).flatMap (fun i => (List.range N).map (fun j =>
    (List.range K).foldl (fun sum k => sum + A.getD (i * K + k) 0 * B.getD (k * N + j) 0) 0))

/-- `simd::horizontal_sum_avx2`: the two-step `hadd` reduction of 8 lanes,
`((a0+a4)+(a1+a5)) + ((a2+a6)+(a3+a7))`. -/
def hsum8 (v : Fin 8 → ℚ) : ℚ := ((v 0 + v 4) + (v 1 + v 5)) + ((v 2 + v 6) + (v 3 + v 7))

/-- The micro-kernel contribution of one `(ii, jj)` cell for the k-block
starting at `k` of size `kb`: the 8-wide FMA loop runs `kb / 8` chunks with
per-lane accumulators, is reduced by `hsum8`, and a scalar tail handles the
remaining `kb mod 8` products. -/
def microKernelSum (K N : ℕ) (Ad Bd : List ℚ) (ii jj k kb : ℕ) : ℚ :=
  let nChunks := kb / 8
  let lanes : Fin 8 → ℚ := fun l =>
    (List.range nChunks).foldl (fun acc c =>
      acc + Ad.getD (ii * K + (k + 8 * c + (l : ℕ))) 0 *
            Bd.getD ((k + 8 * c + (l : ℕ)) * N + jj) 0) 0
  (List.range (kb - 8 * nChunks)).foldl (fun sum t =>
    sum + Ad.getD (ii * K + (k + 8 * nChunks + t)) 0 *
          Bd.getD ((k + 8 * nChunks + t) * N + jj) 0) (hsum8 lanes)

/-- Loop starts of `for (x = 0; x < n; x += step)`. -/
def blockStarts (n step : ℕ) : List ℕ :=
  (List.range ((n + step - 1) / step)).map (· * step)

/-- `simd::matmul_avx2`: blocked multiplication with tile sizes MC=64,
NC=64, KC=256 accumulating `C[ii·N+jj] += microKernelSum` into a
zero-initialized output. -/
def matmul_avx2 (M K N : ℕ) (Ad Bd : List ℚ) : List ℚ :=
  (blockStarts M 64).foldl (fun C0 i =>
    let ib := min 64 (M - i)
    (blockStarts K 256).foldl (fun C1 k =>
      let kb := min 256 (K - k)
      (blockStarts N 64).foldl (fun C2 j =>
        let jb := min 64 (N - j)
        (List.range ib).foldl (fun C3 di =>
          let ii := i + di
          (List.range jb).foldl (fun C4 dj =>
            let jj := j + dj
            C4.set (ii * N + jj) (C4.getD (ii * N + jj) 0 + microKernelSum K N Ad Bd ii jj k kb))
            C3) C2) C1) C0)
    (List.replicate (M * N) 0)

/- ================================================================
   §4  Dense and fused layers — src/src/layers/dense_layer.cpp,
   src/unnamed/part_020 (fused_layers.cpp),
   src/src/ops/activations.cpp
   `E` stands for the (strictly positive) `std::exp`.
   ================================================================ -/

/-- `ops::relu`: elementwise `max(0, x)`. -/
def reluT (t : List ℚ) : List ℚ := t.map (fun v => max 0 v)

/-- `ops::sigmoid`: elementwise `1 / (1 + exp(−x))`, with `exp` abstracted
as `E`. -/
def sigmoidT (E : ℚ → ℚ) (t : List ℚ) : List ℚ := t.map (fun v => 1 / (1 + E (-v)))

/-- `DenseLayer::forward`, 1-D path: `matvec` then in-place bias add. -/
def denseForward1 (inF outF : ℕ) (useBias : Bool) (w b x : List ℚ) : List ℚ :=
  let y := matvec outF inF w x
  if useBias then (List.range outF).map (fun i => y.getD i 0 + b.getD i 0) else y

/-- `DenseLayer::forward`, 2-D path: `Y = X · Wᵀ` then broadcast bias add. -/
def denseForward2 (inF outF batch : ℕ) (useBias : Bool) (w b X : List ℚ) : List ℚ :=
  let Y := matmul batch inF outF X (transpose outF inF w)
  if useBias then
    (List.range batch).flatMap (fun r => (List.range outF).map (fun c =>
      Y.getD (r * outF + c) 0 + b.getD c 0))
  else Y

/-- `FusedDenseReluLayer::forward`, 1-D path: `matvec`, then a single pass
computing `max(0, val + bias)`. -/
def fusedDenseRelu1 (inF outF : ℕ) (useBias : Bool) (w b x : List ℚ) : List ℚ :=
  let y := matvec outF inF w x
  (List.range outF).map (fun i =>
    max 0 (if useBias then y.getD i 0 + b.getD i 0 else y.getD i 0))

/-- `FusedDenseSigmoidLayer::forward`, 1-D path. -/
def fusedDenseSigmoid1 (E : ℚ → ℚ) (inF outF : ℕ) (useBias : Bool) (w b x : List ℚ) : List ℚ :=
  let y := matvec outF inF w x
  (List.range outF).map (fun i =>
    1 / (1 + E (-(if useBias then y.getD i 0 + b.getD i 0 else y.getD i 0))))

/-- `FusedDenseReluLayer::forward`, 2-D path. -/
def fusedDenseRelu2 (inF outF batch : ℕ) (useBias : Bool) (w b X : List ℚ) : List ℚ :=
  let Y := matmul batch inF outF X (transpose outF inF w)
  (List.range batch).flatMap (fun r => (List.range outF).map (fun c =>
    max 0 (if useBias then Y.getD (r * outF + c) 0 + b.getD c 0
           else Y.getD (r * outF + c) 0)))

/-- `FusedDenseSigmoidLayer::forward`, 2-D path. -/
def fusedDenseSigmoid2 (E : ℚ → ℚ) (inF outF batch : ℕ) (useBias : Bool)
    (w b X : List ℚ) : List ℚ :=
  let Y := matmul batch inF outF X (transpose outF inF w)
  (List.range batch).flatMap (fun r => (List.range outF).map (fun c =>
    1 / (1 + E (-(if useBias then Y.getD (r * outF + c) 0 + b.getD c 0
                  else Y.getD (r * outF + c) 0)))))

/- ================================================================
   List indexing helpers
   ================================================================ -/

/-- Element `i` of a map over `List.range`. -/
theorem getD_range_map (f : ℕ → ℚ) (n i : ℕ) (h : i < n) :
    ((List.range n).map f).getD i 0 = f i := by
  rw [List.getD_eq_getElem?_getD, List.getElem?_map, List.getElem?_range h]
  rfl

/-- `flatMap` congruence on the underlying list. -/
theorem flatMap_congr {α β : Type} (l : List α) (f g : α → List β)
    (h : ∀ a ∈ l, f a = g a) : l.flatMap f = l.flatMap g := by
  induction l with
  | nil => rfl
  | cons x xs ih =>
    simp only [List.flatMap_cons]
    rw [h x (by simp), ih (fun a ha => h a (by simp [ha]))]

/-- Element `(r, c)` of a row-major matrix built by `flatMap`/`map` over
ranges. -/
theorem getElem?_range_flatMap (f : ℕ → ℕ → ℚ) (N : ℕ) :
    ∀ (M r c : ℕ), r < M → c < N →
      ((List.range M).flatMap (fun i => (List.range N).map (f i)))[r * N + c]? =
        some (f r c) := by
  intro M
  induction M with
  | zero => intro r c hr; omega
  | succ m ih =>
    intro r c hr hc
    rw [List.range_succ, List.flatMap_append]
    have hlen : ((List.range m).flatMap (fun i => (List.range N).map (f i))).length = m * N := by
      rw [List.length_flatMap]
      have h1 : List.map (List.length ∘ fun i => (List.range N).map (f i)) (List.range m)
          = List.map (fun _ => N) (List.range m) := by
        apply List.map_congr_left
        intro a _
        simp
      rw [h1, List.map_const', List.sum_replicate, List.length_range, smul_eq_mul]
    rw [List.getElem?_append]
    by_cases hrm : r < m
    · rw [if_pos (by rw [hlen]; nlinarith [hc, hrm])]
      exact ih r c hrm hc
    · have hre : r = m := by omega
      subst hre
      rw [if_neg (by omega), hlen]
      have h2 : r * N + c - r * N = c := by omega
      rw [h2]
      simp only [List.flatMap_cons, List.flatMap_nil, List.append_nil]
      rw [List.getElem?_map, List.getElem?_range hc]
      rfl

/-- `getD` version of `getElem?_range_flatMap`. -/
theorem getD_range_flatMap (f : ℕ → ℕ → ℚ) (M N r c : ℕ) (hr : r < M) (hc : c < N) :
    ((List.range M).flatMap (fun i => (List.range N).map (f i))).getD (r * N + c) 0 = f r c := by
  rw [List.getD_eq_getElem?_getD, getElem?_range_flatMap f N M r c hr hc]
  rfl

/- ================================================================
   Fused-layer = Dense-then-activation equalities
   ================================================================ -/

/-- 1-D fused Dense+ReLU equals Dense forward then the ReLU kernel. -/
theorem fusedRelu1_eq (inF outF : ℕ) (useBias : Bool) (w b x : List ℚ) :
    fusedDenseRelu1 inF outF useBias w b x = reluT (denseForward1 inF outF useBias w b x) := by
  unfold fusedDenseRelu1 denseForward1 reluT
  cases useBias with
  | true =>
    simp only [if_true]
    rw [List.map_map]
    rfl
  | false =>
    simp only [Bool.false_eq_true, if_false, matvec, List.map_map]
    apply List.map_congr_left
    intro i hi
    rw [Function.comp]
    congr 1
    exact getD_range_map _ outF i (by simpa using hi)

/-- 1-D fused Dense+Sigmoid equals Dense forward then the sigmoid kernel. -/
theorem fusedSigmoid1_eq (E : ℚ → ℚ) (inF outF : ℕ) (useBias : Bool) (w b x : List ℚ) :
    fusedDenseSigmoid1 E inF outF useBias w b x
      = sigmoidT E (denseForward1 inF outF useBias w b x) := by
  unfold fusedDenseSigmoid1 denseForward1 sigmoidT
  cases useBias with
  | true =>
    simp only [if_true]
    rw [List.map_map]
    rfl
  | false =>
    simp only [Bool.false_eq_true, if_false, matvec, List.map_map]
    apply List.map_congr_left
    intro i hi
    rw [Function.comp]
    rw [getD_range_map _ outF i (by simpa using hi)]

/-- 2-D fused Dense+ReLU equals Dense forward then the ReLU kernel. -/
theorem fusedRelu2_eq (inF outF batch : ℕ) (useBias : Bool) (w b X : List ℚ) :
    fusedDenseRelu2 inF outF batch useBias w b X
      = reluT (denseForward2 inF outF batch useBias w b X) := by
  unfold fusedDenseRelu2 denseForward2 reluT
  cases useBias with
  | true =>
    simp only [if_true]
    rw [List.map_flatMap]
    apply flatMap_congr
    intro r _
    rw [List.map_map]
    rfl
  | false =>
    simp only [Bool.false_eq_true, if_false, matmul, List.map_flatMap]
    apply flatMap_congr
    intro r hr
    rw [List.map_map]
    apply List.map_congr_left
    intro c hc
    rw [Function.comp]
    congr 1
    exact getD_range_flatMap _ batch outF r c (by simpa using hr) (by simpa using hc)

/-- 2-D fused Dense+Sigmoid equals Dense forward then the sigmoid kernel. -/
theorem fusedSigmoid2_eq (E : ℚ → ℚ) (inF outF batch : ℕ) (useBias : Bool) (w b X : List ℚ) :
    fusedDenseSigmoid2 E inF outF batch useBias w b X
      = sigmoidT E (denseForward2 inF outF batch useBias w b X) := by
  unfold fusedDenseSigmoid2 denseForward2 sigmoidT
  cases useBias with
  | true =>
    simp only [if_true]
    rw [List.map_flatMap]
    apply flatMap_congr
    intro r _
    rw [List.map_map]
    rfl
  | false =>
    simp only [Bool.false_eq_true, if_false, matmul, List.map_flatMap]
    apply flatMap_congr
    intro r hr
    rw [List.map_map]
    apply List.map_congr_left
    intro c hc
    rw [Function.comp]
    rw [getD_range_flatMap _ batch outF r c (by simpa using hr) (by simpa using hc)]

/- ================================================================
   Claim theorems: C2, C3, C7, C8, C10
   ================================================================ -/

/-- **C2.** For every Dense parameter set and every 1-D or 2-D input, the
fused Dense+ReLU (resp. Dense+Sigmoid) layer produces exactly the output of
Dense forward followed by the ReLU (resp. sigmoid) activation kernel — in
particular every element agrees within the claimed 1e-5 absolute
tolerance.  `E` is the abstract `std::exp`. -/
theorem fused_matches_dense_then_activation :
    (∀ (inF outF : ℕ) (useBias : Bool) (w b x : List ℚ),
      fusedDenseRelu1 inF outF useBias w b x
        = reluT (denseForward1 inF outF useBias w b x))
    ∧ (∀ (E : ℚ → ℚ) (inF outF : ℕ) (useBias : Bool) (w b x : List ℚ),
      fusedDenseSigmoid1 E inF outF useBias w b x
        = sigmoidT E (denseForward1 inF outF useBias w b x))
    ∧ (∀ (inF outF batch : ℕ) (useBias : Bool) (w b X : List ℚ),
      fusedDenseRelu2 inF outF batch useBias w b X
        = reluT (denseForward2 inF outF batch useBias w b X))
    ∧ (∀ (E : ℚ → ℚ) (inF outF batch : ℕ) (useBias : Bool) (w b X : List ℚ),
      fusedDenseSigmoid2 E inF outF batch useBias w b X
        = sigmoidT E (denseForward2 inF outF batch useBias w b X))
    ∧ (∀ (inF outF : ℕ) (useBias : Bool) (w b x : List ℚ) (i : ℕ),
      |(fusedDenseRelu1 inF outF useBias w b x).getD i 0
        - (reluT (denseForward1 inF outF useBias w b x)).getD i 0| ≤ 1 / 100000)
    ∧ (∀ (E : ℚ → ℚ) (inF outF batch : ℕ) (useBias : Bool) (w b X : List ℚ) (i : ℕ),
      |(fusedDenseSigmoid2 E inF outF batch useBias w b X).getD i 0
        - (sigmoidT E (denseForward2 inF outF batch useBias w b X)).getD i 0| ≤ 1 / 100000) := by
  refine ⟨fusedRelu1_eq, fusedSigmoid1_eq, fusedRelu2_eq, fusedSigmoid2_eq, ?_, ?_⟩
  · intro inF outF useBias w b x i
    rw [fusedRelu1_eq]
    simp
  · intro E inF outF batch useBias w b X i
    rw [fusedSigmoid2_eq]
    simp

/-- **C8.** On `A = [[1,2],[3,4]]`, `B = [[5,6],[7,8]]` both the reference
matmul and the blocked SIMD matmul produce exactly `[[19,22],[43,50]]`. -/
theorem matmul_2x2_reference_and_simd :
    matmul 2 2 2 [1, 2, 3, 4] [5, 6, 7, 8] = [19, 22, 43, 50] ∧
    matmul_avx2 2 2 2 [1, 2, 3, 4] [5, 6, 7, 8] = [19, 22, 43, 50] := by
  constructor
  · norm_num [matmul, List.range_succ]
  · norm_num [matmul_avx2, blockStarts, microKernelSum, hsum8, List.range_succ,
      List.replicate]

/-- **C3, counterexample.** The claim quantifies over *every* input, kernel
and stride; at input 5, kernel 2, stride 1 the computed SAME padding is
`(needed − input)/2 = 0` (integer division truncates the odd total 1) and the
output size is 4, not `⌈5/1⌉ = 5`. -/
theorem same_padding_counterexample :
    conv_output_size 5 2 1 (compute_same_padding 5 2 1) = some 4 ∧
    (5 + 1 - 1) / 1 = 5 ∧
    conv_output_size 5 2 1 (compute_same_padding 5 2 1) ≠ some ((5 + 1 - 1) / 1) := by
  decide

/-- **C3, amended.** For every input size ≥ 1, kernel ≥ 1 and stride ≥ 1,
SAME padding yields output size `⌈input/stride⌉` — computed as
`floor((input + 2·padding − kernel)/stride) + 1` with `padding = total/2`
per side — *provided* the required total `needed − input`
(`needed = (⌈input/stride⌉ − 1)·stride + kernel`) is not positive or is
even (the integer halving of a positive odd total drops a pixel, as the
counterexample at input 5, kernel 2, stride 1 exhibits).  In particular
input 5, kernel 3, stride 1 gives 5 and input 28, kernel 3, stride 1
gives 28. -/
theorem same_padding_output_size :
    (∀ input kernel stride : ℕ, 0 < input → 0 < kernel → 0 < stride →
      (((input + stride - 1) / stride - 1) * stride + kernel ≤ input ∨
        2 ∣ (((input + stride - 1) / stride - 1) * stride + kernel - input)) →
      conv_output_size input kernel stride (compute_same_padding input kernel stride)
        = some ((input + stride - 1) / stride))
    ∧ conv_output_size 5 3 1 (compute_same_padding 5 3 1) = some 5
    ∧ conv_output_size 28 3 1 (compute_same_padding 28 3 1) = some 28 := by
  refine ⟨?_, by decide, by decide⟩
  intro input kernel stride hin hk hs hcond
  have hc1 : 0 < (input + stride - 1) / stride := Nat.div_pos (by omega) hs
  obtain ⟨d, hd⟩ : ∃ d, (input + stride - 1) / stride = d + 1 :=
    ⟨(input + stride - 1) / stride - 1, by omega⟩
  have hmod := Nat.div_add_mod (input + stride - 1) stride
  have hmlt : (input + stride - 1) % stride < stride := Nat.mod_lt _ hs
  rw [hd] at hmod
  have hmul : stride * (d + 1) = d * stride + stride := by ring
  rw [hmul] at hmod
  have hub : input ≤ d * stride + stride := by omega
  have hlb : d * stride < input := by omega
  have hsimp : ((input + stride - 1) / stride - 1) * stride = d * stride := by
    rw [hd]; simp
  rw [hsimp] at hcond
  have hpad : compute_same_padding input kernel stride =
      (if input < d * stride + kernel then (d * stride + kernel - input) / 2 else 0) := by
    simp only [compute_same_padding]
    rw [hsimp]
  rw [hd, hpad]
  by_cases hlt : input < d * stride + kernel
  · rcases hcond with hA | hB
    · omega
    · obtain ⟨t, ht⟩ := hB
      have h2p : 2 * ((d * stride + kernel - input) / 2) = d * stride + kernel - input := by
        omega
      rw [if_pos hlt]
      simp only [conv_output_size]
      rw [if_neg (by omega), if_neg (by omega)]
      have harg : input + 2 * ((d * stride + kernel - input) / 2) - kernel = d * stride := by
        omega
      rw [harg, Nat.mul_div_cancel _ hs]
  · rw [if_neg hlt]
    simp only [conv_output_size]
    rw [if_neg (by omega), if_neg (by omega)]
    have harg : (input + 2 * 0 - kernel) / stride = d := by
      refine Nat.div_eq_of_lt_le (by omega) ?_
      calc input + 2 * 0 - kernel < d * stride + stride := by omega
        _ = Nat.succ d * stride := (Nat.succ_mul d stride).symm
    rw [harg]

/-- **C3, witness** for the amended theorem at input 5, kernel 3, stride 1. -/
theorem same_padding_output_size_witness :
    conv_output_size 5 3 1 (compute_same_padding 5 3 1) = some ((5 + 1 - 1) / 1) :=
  same_padding_output_size.1 5 3 1 (by decide) (by decide) (by decide) (by decide)

/-- **C7.** Every avg-pool output element is the sum of the in-bounds input
elements of its window (padded positions contributing 0) divided by the full
kernel area `kernel_size²`, not by the count of valid positions: the code's
accumulate-then-multiply-by-`inv_area` loop equals the spec formula. -/
theorem avgpool_full_kernel_area (k s p H W : ℕ) (ch : List ℚ) (oh ow : ℕ) :
    avgPoolElem k s p H W ch oh ow = avgPoolElemSpec k s p H W ch oh ow := by
  unfold avgPoolElem avgPoolElemSpec
  rw [one_div, div_eq_mul_inv]
  congr 1
  have hcond : ∀ kh : ℕ, (fun (acc2 : ℚ) (kw : ℕ) =>
      if poolInBounds s p H W oh ow kh kw then
        acc2 + ch.getD ((oh * s + kh - p) * W + (ow * s + kw - p)) 0
      else acc2)
      = (fun acc2 kw => acc2 + if poolInBounds s p H W oh ow kh kw then
          ch.getD ((oh * s + kh - p) * W + (ow * s + kw - p)) 0 else 0) := by
    intro kh
    funext acc2 kw
    split <;> simp
  have houter : (fun (acc : ℚ) (kh : ℕ) =>
      (List.range k).foldl (fun acc2 kw =>
        if poolInBounds s p H W oh ow kh kw then
          acc2 + ch.getD ((oh * s + kh - p) * W + (ow * s + kw - p)) 0
        else acc2) acc)
      = (fun acc kh => acc + ∑ kw ∈ Finset.range k,
          if poolInBounds s p H W oh ow kh kw then
            ch.getD ((oh * s + kh - p) * W + (ow * s + kw - p)) 0 else 0) := by
    funext acc kh
    rw [hcond kh, foldl_range_add]
  rw [houter, foldl_range_add]
  rw [zero_add]

/-- **C10.** When a max-pool window contains no in-bounds input position
(padding large enough), the output element is the untouched `-∞`
accumulator — max-pool output is not always finite for finite input. -/
theorem maxpool_empty_window_neg_inf (k s p H W : ℕ) (ch : List ℚ) (oh ow : ℕ)
    (h : ∀ kh ∈ Finset.range k, ∀ kw ∈ Finset.range k,
      ¬ poolInBounds s p H W oh ow kh kw) :
    maxPoolElem k s p H W ch oh ow = ⊥ := by
  unfold maxPoolElem
  apply foldl_fixed
  intro kh hkh acc
  apply foldl_fixed
  intro kw hkw acc2
  rw [if_neg (h kh (by simpa using hkh) kw (by simpa using hkw))]

/-- **C10, witness**: a 1×1 input pooled with kernel 1, stride 1, padding 2
has its first window entirely inside the padding region, so that output
element is `-∞` although the input value 3 is finite. -/
theorem maxpool_empty_window_neg_inf_witness :
    maxPoolElem 1 1 2 1 1 [3] 0 0 = ⊥ :=
  maxpool_empty_window_neg_inf 1 1 2 1 1 [3] 0 0 (by decide)

/- ================================================================
   §5  Softmax — src/src/ops/activations.cpp (softmax_1d / softmax)
   `E` is the abstract strictly positive `std::exp`.  The float `-∞`
   max seed is equivalent, for a nonempty row, to folding `max` from
   the first element; rank > 2 is rejected with `std::invalid_argument`.
   ================================================================ -/

/-- `softmax_1d`: subtract the max, exponentiate, normalize by the
accumulated sum. -/
def softmax1d (E : ℚ → ℚ) (xs : List ℚ) : List ℚ :=
  match xs with
  | [] => []
  | x :: rest =>
    let m := rest.foldl max x
    let exps := (x :: rest).map (fun v => E (v - m))
    let s := exps.foldl (· + ·) 0
    exps.map (fun e => e / s)

/-- `ops::softmax`: 1-D over the whole tensor, 2-D row-wise, rank > 2
rejected. -/
def softmaxT (E : ℚ → ℚ) (shape : List ℕ) (data : List ℚ) : Except String (List ℚ) :=
  if 2 < shape.length then
    .error "softmax supports 1D and 2D tensors only"
  else if shape.length = 1 then
    .ok (softmax1d E data)
  else
    let rows := shape.getD 0 0
    let cols := shape.getD 1 0
    .ok ((List.range rows).flatMap (fun r => softmax1d E ((data.drop (r * cols)).take cols)))

/-- Dividing every element by `s` divides the sum by `s`. -/
theorem sum_map_div (l : List ℚ) (s : ℚ) : (l.map (fun e => e / s)).sum = l.sum / s := by
  induction l with
  | nil => simp
  | cons x xs ih => simp [ih, add_div]

/-- A nonempty softmax row sums to exactly 1 (exact arithmetic). -/
theorem softmax1d_sum (E : ℚ → ℚ) (hE : ∀ q, 0 < E q) (xs : List ℚ) (hne : xs ≠ []) :
    (softmax1d E xs).sum = 1 := by
  match xs with
  | [] => exact absurd rfl hne
  | x :: rest =>
    simp only [softmax1d]
    rw [sum_map_div, ← List.sum_eq_foldl]
    have hpos : 0 < ((x :: rest).map (fun v => E (v - rest.foldl max x))).sum := by
      have hm : E (x - rest.foldl max x)
          ∈ (x :: rest).map (fun v => E (v - rest.foldl max x)) := by
        simp
      calc (0:ℚ) < E (x - rest.foldl max x) := hE _
        _ ≤ _ := List.single_le_sum (fun y hy => by
            simp only [List.mem_map] at hy
            obtain ⟨v, _, rfl⟩ := hy
            exact le_of_lt (hE _)) _ hm
    exact div_self (ne_of_gt hpos)

/-- Every softmax output lies in `(0, 1]`. -/
theorem softmax1d_mem_bounds (E : ℚ → ℚ) (hE : ∀ q, 0 < E q) (xs : List ℚ)
    (hne : xs ≠ []) : ∀ y ∈ softmax1d E xs, 0 < y ∧ y ≤ 1 := by
  match xs with
  | [] => exact absurd rfl hne
  | x :: rest =>
    intro y hy
    simp only [softmax1d, List.mem_map] at hy
    obtain ⟨e, ⟨v, hv, rfl⟩, rfl⟩ := hy
    have he : E (v - rest.foldl max x)
        ∈ (x :: rest).map (fun u => E (u - rest.foldl max x)) :=
      List.mem_map_of_mem _ hv
    have hpos : ∀ z ∈ (x :: rest).map (fun v => E (v - rest.foldl max x)), 0 < z := by
      intro z hz
      simp only [List.mem_map] at hz
      obtain ⟨v, _, rfl⟩ := hz
      exact hE _
    have hsum : ((x :: rest).map (fun v => E (v - rest.foldl max x))).foldl (· + ·) 0
        = ((x :: rest).map (fun v => E (v - rest.foldl max x))).sum := by
      rw [List.sum_eq_foldl]
    have hspos : 0 < ((x :: rest).map (fun v => E (v - rest.foldl max x))).sum :=
      lt_of_lt_of_le (hpos _ he) (List.single_le_sum (fun z hz => le_of_lt (hpos z hz)) _ he)
    constructor
    · rw [hsum]
      exact div_pos (hpos _ he) hspos
    · rw [hsum]
      rw [div_le_one hspos]
      exact List.single_le_sum (fun z hz => le_of_lt (hpos z hz)) _ he

/-- Row `r` of a `flatMap` of constant-length rows. -/
theorem flatMap_row {α : Type} (f : ℕ → List α) (L : ℕ) :
    ∀ (n : ℕ), (∀ i < n, (f i).length = L) →
      ∀ r : ℕ, r < n → (((List.range n).flatMap f).drop (r * L)).take L = f r := by
  intro n
  induction n with
  | zero => intro _ r hr; omega
  | succ m ih =>
    intro hf r hr
    rw [List.range_succ, List.flatMap_append]
    have hlen : ((List.range m).flatMap f).length = m * L := by
      rw [List.length_flatMap]
      have h1 : List.map (List.length ∘ f) (List.range m)
          = List.map (fun _ => L) (List.range m) :=
        List.map_congr_left (fun a ha => by
          simp only [Function.comp]
          exact hf a (by simp only [List.mem_range] at ha; omega))
      rw [h1, List.map_const', List.sum_replicate, List.length_range, smul_eq_mul]
    by_cases hrm : r < m
    · have hmul : (r + 1) * L ≤ m * L := Nat.mul_le_mul_right L (by omega)
      rw [add_one_mul] at hmul
      rw [List.drop_append_of_le_length (by omega)]
      rw [List.take_append_of_le_length]
      · exact ih (fun i hi => hf i (by omega)) r hrm
      · rw [List.length_drop, hlen]
        omega
    · have hre : r = m := by omega
      subst hre
      rw [← hlen, List.drop_left]
      simp only [List.flatMap_cons, List.flatMap_nil, List.append_nil]
      rw [← hf r (by omega), List.take_length]

/-- `softmax_1d` preserves length. -/
theorem softmax1d_length (E : ℚ → ℚ) (xs : List ℚ) :
    (softmax1d E xs).length = xs.length := by
  match xs with
  | [] => rfl
  | x :: rest => simp [softmax1d]

/-- **C9.** For every 1-D input (nonempty) and every well-shaped 2-D input,
softmax output values are all finite and in `(0, 1]` — the exact-arithmetic
counterpart of "no NaN or Inf" — and each row sums to 1 within 1e-6
(here: exactly 1); rank ≥ 3 input is rejected.  Holds for any strictly
positive `E`, hence in particular for inputs containing values like 1000. -/
theorem softmax_rows_normalized (E : ℚ → ℚ) (hE : ∀ q, 0 < E q) :
    (∀ data : List ℚ, data ≠ [] →
      ∃ out, softmaxT E [data.length] data = .ok out ∧
        |out.sum - 1| ≤ 1 / 1000000 ∧ ∀ y ∈ out, 0 < y ∧ y ≤ 1)
    ∧ (∀ (rows cols : ℕ) (data : List ℚ), 0 < cols → data.length = rows * cols →
      ∃ out, softmaxT E [rows, cols] data = .ok out ∧
        ∀ r < rows, |((out.drop (r * cols)).take cols).sum - 1| ≤ 1 / 1000000 ∧
          ∀ y ∈ (out.drop (r * cols)).take cols, 0 < y ∧ y ≤ 1)
    ∧ (∀ (shape : List ℕ) (data : List ℚ), 2 < shape.length →
      ∃ msg, softmaxT E shape data = .error msg) := by
  refine ⟨?_, ?_, ?_⟩
  · intro data hne
    refine ⟨softmax1d E data, ?_, ?_, softmax1d_mem_bounds E hE data hne⟩
    · simp [softmaxT]
    · rw [softmax1d_sum E hE data hne]
      norm_num
  · intro rows cols data hcols hlen
    refine ⟨(List.range rows).flatMap
      (fun r => softmax1d E ((data.drop (r * cols)).take cols)), ?_, ?_⟩
    · simp [softmaxT]
    · intro r hr
      have hslicelen : ∀ i < rows, ((data.drop (i * cols)).take cols).length = cols := by
        intro i hi
        rw [List.length_take, List.length_drop, hlen]
        have hmul : (i + 1) * cols ≤ rows * cols := Nat.mul_le_mul_right cols (by omega)
        rw [add_one_mul] at hmul
        omega
      have hslice : ∀ i < rows,
          (softmax1d E ((data.drop (i * cols)).take cols)).length = cols := by
        intro i hi
        rw [softmax1d_length, hslicelen i hi]
      rw [flatMap_row _ cols rows hslice r hr]
      have hsne : (data.drop (r * cols)).take cols ≠ [] := by
        have := hslicelen r hr
        intro hcon
        rw [hcon] at this
        simp at this
        omega
      refine ⟨?_, softmax1d_mem_bounds E hE _ hsne⟩
      rw [softmax1d_sum E hE _ hsne]
      norm_num
  · intro shape data hlen
    exact ⟨"softmax supports 1D and 2D tensors only", by
      simp only [softmaxT]
      rw [if_pos hlen]⟩

/-- **C9, witness**: softmax of `[1000, 0]` (with the positive stand-in
`E = const 1`) is well-formed, sums to 1 within 1e-6 and stays in (0,1]. -/
theorem softmax_rows_normalized_witness :
    ∃ out, softmaxT (fun _ => (1:ℚ)) [([1000, 0] : List ℚ).length] [1000, 0] = .ok out ∧
      |out.sum - 1| ≤ 1 / 1000000 ∧ ∀ y ∈ out, 0 < y ∧ y ≤ 1 :=
  (softmax_rows_normalized (fun _ => 1) (fun _ => one_pos)).1 [1000, 0] (List.cons_ne_nil _ _)

/- ================================================================
   §6  Quantization — src/unnamed/part_024 (quantized_tensor.cpp)
   ================================================================ -/


/-- `std::round`: round half away from zero. -/
def rnd (x : ℚ) : ℤ := if 0 ≤ x then ⌊x + 1/2⌋ else -⌊-x + 1/2⌋

/-- `std::max(-128, std::min(127, ·))` as applied before the int8 cast. -/
def clamp8 (x : ℤ) : ℤ := max (-128) (min 127 x)

/-- `QuantizedTensor`: int8 codes plus per-tensor scale and zero point. -/
structure QuantT where
  data : List ℤ
  scale : ℚ
  zero_point : ℤ

/-- `QuantizedTensor::quantize`: min/max over the elements joined with 0;
degenerate all-equal case emits scale 1 and constant data; otherwise
asymmetric quantization with `scale = (max−min)/255` and
`zero_point = clamp(round(−128 − min/scale))`. -/
def quantize (t : List ℚ) : QuantT :=
  match t with
  | [] => ⟨[], 1, 0⟩
  | x :: xs =>
    let mn := min (xs.foldl min x) 0
    let mx := max (xs.foldl max x) 0
    if mx = mn then
      let zp := clamp8 (rnd mn)
      ⟨(x :: xs).map (fun _ => zp), 1, zp⟩
    else
      let scale := (mx - mn) / 255
      let zp := clamp8 (rnd (-128 - mn / scale))
      ⟨(x :: xs).map (fun v => clamp8 (rnd (v / scale + zp))), scale, zp⟩

/-- `QuantizedTensor::dequantize`: `(q − zero_point) · scale`. -/
def dequantize (qt : QuantT) : List ℚ :=
  qt.data.map (fun q : ℤ => ((q : ℚ) - (qt.zero_point : ℚ)) * qt.scale)

-- rounding error bound
/-- Rounding half away from zero moves a value by at most 1/2. -/
theorem rnd_close (x : ℚ) : |(rnd x : ℚ) - x| ≤ 1 / 2 := by
  unfold rnd
  by_cases h : 0 ≤ x
  · rw [if_pos h, abs_le]
    have h1 := Int.floor_le (x + 1/2)
    have h2 := Int.lt_floor_add_one (x + 1/2)
    constructor <;> [skip; skip] <;> push_cast at h1 h2 ⊢ <;> linarith
  · rw [if_neg h, abs_le]
    have h1 := Int.floor_le (-x + 1/2)
    have h2 := Int.lt_floor_add_one (-x + 1/2)
    constructor <;> [skip; skip] <;> push_cast at h1 h2 ⊢ <;> linarith

/-- Round-then-clamp moves a value in `[-128.5, 127.5]` by at most 1/2. -/
theorem clamp8_rnd_close (u : ℚ) (h1 : -128 - 1/2 ≤ u) (h2 : u ≤ 127 + 1/2) :
    |(clamp8 (rnd u) : ℚ) - u| ≤ 1 / 2 := by
  have hr := rnd_close u
  unfold clamp8
  rcases le_or_lt (rnd u) (-128) with hlo | hlo
  · have : min 127 (rnd u) = rnd u := by omega
    rw [this]
    have : max (-128) (rnd u) = -128 := by omega
    rw [this]
    rw [abs_le] at hr ⊢
    push_cast at hr ⊢
    have : ((rnd u : ℚ)) ≤ -128 := by exact_mod_cast hlo
    constructor <;> linarith
  · rcases le_or_lt (127) (rnd u) with hhi | hhi
    · have : min 127 (rnd u) = 127 := by omega
      rw [this]
      have : max (-128) (127 : ℤ) = 127 := by omega
      rw [this]
      rw [abs_le] at hr ⊢
      push_cast at hr ⊢
      have : (127 : ℚ) ≤ (rnd u : ℚ) := by exact_mod_cast hhi
      constructor <;> linarith
    · have : min 127 (rnd u) = rnd u := by omega
      rw [this]
      have : max (-128) (rnd u) = rnd u := by omega
      rw [this]
      exact hr

-- foldl min/max bounds
/-- A `min`-fold is bounded by its seed. -/
theorem foldl_min_le_init (xs : List ℚ) : ∀ x : ℚ, xs.foldl min x ≤ x := by
  induction xs with
  | nil => intro x; exact le_refl x
  | cons y ys ih =>
    intro x
    rw [List.foldl_cons]
    exact le_trans (ih (min x y)) (min_le_left x y)

/-- A `min`-fold is bounded by every list element. -/
theorem foldl_min_le_mem (xs : List ℚ) : ∀ x : ℚ, ∀ v ∈ xs, xs.foldl min x ≤ v := by
  induction xs with
  | nil => intro x v hv; exact absurd hv (List.not_mem_nil v)
  | cons y ys ih =>
    intro x v hv
    rw [List.foldl_cons]
    rcases List.mem_cons.mp hv with rfl | hv2
    · exact le_trans (foldl_min_le_init ys (min x v)) (min_le_right x v)
    · exact ih (min x y) v hv2

/-- A `max`-fold dominates its seed. -/
theorem le_foldl_max_init (xs : List ℚ) : ∀ x : ℚ, x ≤ xs.foldl max x := by
  induction xs with
  | nil => intro x; exact le_refl x
  | cons y ys ih =>
    intro x
    rw [List.foldl_cons]
    exact le_trans (le_max_left x y) (ih (max x y))

/-- A `max`-fold dominates every list element. -/
theorem le_foldl_max_mem (xs : List ℚ) : ∀ x : ℚ, ∀ v ∈ xs, v ≤ xs.foldl max x := by
  induction xs with
  | nil => intro x v hv; exact absurd hv (List.not_mem_nil v)
  | cons y ys ih =>
    intro x v hv
    rw [List.foldl_cons]
    rcases List.mem_cons.mp hv with rfl | hv2
    · exact le_trans (le_max_right x v) (le_foldl_max_init ys (max x v))
    · exact ih (max x y) v hv2

/-- Element `i` of a double map. -/
theorem getD_map_map (f : ℚ → ℤ) (g : ℤ → ℚ) (l : List ℚ) (i : ℕ) (hi : i < l.length) :
    ((l.map f).map g).getD i 0 = g (f (l.get ⟨i, hi⟩)) := by
  rw [List.getD_eq_getElem?_getD, List.getElem?_map, List.getElem?_map,
    List.getElem?_eq_getElem hi]
  rfl

/-- **C5.** Quantize-then-dequantize moves every element by at most one
quantum (the computed scale): the error is in fact at most `scale/2` in
exact arithmetic, away from the int8 saturation boundary by construction
of the zero point. -/
theorem quantize_roundtrip (t : List ℚ) (i : ℕ) (hi : i < t.length) :
    |(dequantize (quantize t)).getD i 0 - t.getD i 0| ≤ (quantize t).scale := by
  match t with
  | [] => simp at hi
  | x :: xs =>
    have hvd : (x :: xs).getD i 0 = (x :: xs).get ⟨i, hi⟩ := by
      rw [List.getD_eq_getElem?_getD, List.getElem?_eq_getElem hi]
      rfl
    have hvmem : (x :: xs).get ⟨i, hi⟩ ∈ x :: xs := List.get_mem (x :: xs) i hi
    set v := (x :: xs).get ⟨i, hi⟩ with hvdef
    set mn := min (xs.foldl min x) 0 with hmn
    set mx := max (xs.foldl max x) 0 with hmx
    have hmn0 : mn ≤ 0 := min_le_right _ _
    have hmx0 : 0 ≤ mx := le_max_right _ _
    have hmnv : mn ≤ v := by
      rcases List.mem_cons.mp hvmem with h | h
      · exact le_trans (min_le_left _ _) (h ▸ foldl_min_le_init xs x)
      · exact le_trans (min_le_left _ _) (foldl_min_le_mem xs x v h)
    have hvmx : v ≤ mx := by
      rcases List.mem_cons.mp hvmem with h | h
      · exact le_trans (h ▸ le_foldl_max_init xs x) (le_max_left _ _)
      · exact le_trans (le_foldl_max_mem xs x v h) (le_max_left _ _)
    by_cases hdeg : mx = mn
    · -- degenerate: min = max forces mn = mx = 0, so every element is 0
      have hmn' : mn = 0 := by
        have h0 : (0:ℚ) ≤ mn := hdeg ▸ hmx0
        linarith
      have hv0 : v = 0 := by
        have h1 : v ≤ 0 := by rw [← hmn', ← hdeg]; exact hvmx
        have h2 : 0 ≤ v := hmn' ▸ hmnv
        linarith
      rw [hvd, hv0]
      simp only [quantize]
      rw [← hmn, ← hmx, if_pos hdeg]
      unfold dequantize
      rw [getD_map_map _ _ _ i hi]
      norm_num
    · -- non-degenerate branch
      have hmnmx : mn < mx := lt_of_le_of_ne (le_trans hmn0 hmx0) (Ne.symm hdeg)
      rw [hvd]
      simp only [quantize]
      rw [← hmn, ← hmx, if_neg hdeg]
      unfold dequantize
      rw [getD_map_map _ _ _ i hi]
      set scale := (mx - mn) / 255 with hscaledef
      have hscale : 0 < scale := by
        rw [hscaledef]
        have h0 : (0:ℚ) < mx - mn := by linarith
        positivity
      set zpf := -128 - mn / scale with hzpfdef
      set zp := clamp8 (rnd zpf) with hzpdef
      have h255 : scale * 255 = mx - mn := by
        rw [hscaledef]
        field_simp
      have hmnds0 : mn / scale ≤ 0 := by
        rcases div_nonpos_iff.mpr (Or.inr ⟨hmn0, hscale.le⟩) with h
        exact h
      have hmnds : -255 ≤ mn / scale := by
        rw [le_div_iff₀ hscale]
        nlinarith
      have hzpf1 : -128 ≤ zpf := by rw [hzpfdef]; linarith
      have hzpf2 : zpf ≤ 127 := by rw [hzpfdef]; linarith
      have hrz := rnd_close zpf
      rw [abs_le] at hrz
      have hrz1 : (-128 : ℤ) ≤ rnd zpf := by
        have hq : (-129 : ℚ) < (rnd zpf : ℚ) := by linarith
        have hz : (-129 : ℤ) < rnd zpf := by exact_mod_cast hq
        omega
      have hrz2 : rnd zpf ≤ 127 := by
        have hq : (rnd zpf : ℚ) < 128 := by linarith
        have hz : rnd zpf < (128 : ℤ) := by exact_mod_cast hq
        omega
      have hzp_eq : zp = rnd zpf := by
        rw [hzpdef]
        unfold clamp8
        omega
      have hzp_close1 : (zp : ℚ) - zpf ≤ 1/2 := by
        rw [hzp_eq]
        linarith
      have hzp_close2 : -(1/2) ≤ (zp : ℚ) - zpf := by
        rw [hzp_eq]
        linarith
      have hvds1 : mn / scale ≤ v / scale := by
        rw [div_le_div_iff_of_pos_right hscale]
        exact hmnv
      have hmxds : mx / scale = mn / scale + 255 := by
        field_simp
        linarith
      have hvds2 : v / scale ≤ mn / scale + 255 := by
        rw [← hmxds, div_le_div_iff_of_pos_right hscale]
        exact hvmx
      have hu1 : -128 - 1/2 ≤ v / scale + (zp : ℚ) := by
        rw [hzpfdef] at hzp_close2
        linarith
      have hu2 : v / scale + (zp : ℚ) ≤ 127 + 1/2 := by
        rw [hzpfdef] at hzp_close1
        linarith
      have hq := clamp8_rnd_close (v / scale + (zp : ℚ)) hu1 hu2
      have hvs : v / scale * scale = v := div_mul_cancel₀ v (ne_of_gt hscale)
      have hkey : ((clamp8 (rnd (v / scale + (zp : ℚ))) : ℚ) - (zp : ℚ)) * scale - v
          = ((clamp8 (rnd (v / scale + (zp : ℚ))) : ℚ) - (v / scale + (zp : ℚ))) * scale := by
        linear_combination hvs
      rw [hkey, abs_mul, abs_of_pos hscale]
      calc |(clamp8 (rnd (v / scale + (zp : ℚ))) : ℚ) - (v / scale + (zp : ℚ))| * scale
          ≤ (1/2) * scale := mul_le_mul_of_nonneg_right hq hscale.le
        _ ≤ scale := by linarith


/-- **C5, witness** at the one-element tensor `[1]`. -/
theorem quantize_roundtrip_witness :
    |(dequantize (quantize [1])).getD 0 0 - ([1] : List ℚ).getD 0 0| ≤ (quantize [1]).scale :=
  quantize_roundtrip [1] 0 (by decide)

/- ================================================================
   §7  Serialization — src/unnamed/part_026 (model_serializer.cpp),
   src/src/io/model_parser.cpp, src/src/model_handle.cpp,
   src/src/engine/inference_engine.cpp (load path)
   ================================================================ -/


/-- A serializable layer as held in memory.  Float parameters are raw
32-bit patterns (`Nat < 2^32`).  A layer built with `use_bias = false`
still owns a zero-initialized bias tensor (`List.replicate out 0`), as the
C++ constructors allocate it unconditionally and `set_bias` rejects it. -/
inductive LayerSpec where
  | dense (inF outF : ℕ) (hasBias : Bool) (weights bias : List ℕ)
  | relu
  | sigmoid
  | tanh
  | softmax
  | conv2d (inC outC kH kW sH sW : ℕ) (same hasBias : Bool) (weights bias : List ℕ)
  | maxpool2d (kernel stride padding : ℕ)
  | avgpool2d (kernel stride padding : ℕ)
  | flatten
  deriving DecidableEq

/-- Little-endian bytes of a `uint32_t` as written by `write_value`. -/
def u32Bytes (v : ℕ) : List ℕ :=
  [v % 256, v / 256 % 256, v / 65536 % 256, v / 16777216 % 256]

/-- Little-endian `uint32_t` from 4 bytes as read by `read_value`. -/
def u32Of (b0 b1 b2 b3 : ℕ) : ℕ := b0 + 256 * b1 + 65536 * b2 + 16777216 * b3

/-- `TITAN_MAGIC`: the bytes of `"TITN"`. -/
def magicBytes : List ℕ := [84, 73, 84, 78]

/-- `ModelSerializer::save`, one layer record: 4-byte type tag, then the
type-specific fields and parameters. -/
def serializeLayer : LayerSpec → List ℕ
  | .dense inF outF hasBias w b =>
      u32Bytes 1 ++ u32Bytes inF ++ u32Bytes outF ++ [if hasBias then 1 else 0]
        ++ w.flatMap u32Bytes ++ (if hasBias then b.flatMap u32Bytes else [])
  | .relu => u32Bytes 2
  | .sigmoid => u32Bytes 3
  | .tanh => u32Bytes 4
  | .softmax => u32Bytes 5
  | .conv2d inC outC kH kW sH sW same hasBias w b =>
      u32Bytes 6 ++ u32Bytes inC ++ u32Bytes outC ++ u32Bytes kH ++ u32Bytes kW
        ++ u32Bytes sH ++ u32Bytes sW ++ [if same then 1 else 0]
        ++ [if hasBias then 1 else 0] ++ w.flatMap u32Bytes
        ++ (if hasBias then b.flatMap u32Bytes else [])
  | .maxpool2d k s p => u32Bytes 7 ++ u32Bytes k ++ u32Bytes s ++ u32Bytes p
  | .avgpool2d k s p => u32Bytes 8 ++ u32Bytes k ++ u32Bytes s ++ u32Bytes p
  | .flatten => u32Bytes 9

/-- `ModelSerializer::save`: magic, version (`TITAN_FORMAT_VERSION = 2`),
layer count, then the layer records. -/
def serializeModel (m : List LayerSpec) : List ℕ :=
  magicBytes ++ u32Bytes 2 ++ u32Bytes m.length ++ m.flatMap serializeLayer

/-- The two C++ exception classes thrown on the load path; the model
handle's `build` dispatches on the class. -/
inductive CppError where
  | runtimeError (msg : String)
  | invalidArgument (msg : String)
  deriving DecidableEq

/-- A raw `ifstream` read of `n` bytes; a short read throws
`std::runtime_error`. -/
def readBytes (n : ℕ) (msg : String) (bs : List ℕ) : Except CppError (List ℕ × List ℕ) :=
  if bs.length < n then .error (.runtimeError msg)
  else .ok (bs.take n, bs.drop n)

/-- `read_value<uint32_t>`. -/
def readU32 (bs : List ℕ) : Except CppError (ℕ × List ℕ) :=
  match readBytes 4 "ModelParser: unexpected end of file" bs with
  | .error e => .error e
  | .ok (c, rest) => .ok (u32Of (c.getD 0 0) (c.getD 1 0) (c.getD 2 0) (c.getD 3 0), rest)

/-- `read_value<uint8_t>`. -/
def readU8 (bs : List ℕ) : Except CppError (ℕ × List ℕ) :=
  match readBytes 1 "ModelParser: unexpected end of file" bs with
  | .error e => .error e
  | .ok (c, rest) => .ok (c.getD 0 0, rest)

/-- `read_floats`: `count` 4-byte values (bit patterns kept intact). -/
def readF32s : ℕ → List ℕ → Except CppError (List ℕ × List ℕ)
  | 0, bs => .ok ([], bs)
  | n + 1, bs =>
    match readBytes 4 "ModelParser: unexpected end of file while reading weight data" bs with
    | .error e => .error e
    | .ok (c, rest) =>
      match readF32s n rest with
      | .error e => .error e
      | .ok (ws, rest2) =>
        .ok (u32Of (c.getD 0 0) (c.getD 1 0) (c.getD 2 0) (c.getD 3 0) :: ws, rest2)

-- round-trip lemmas for the primitive readers
/-- A `uint32_t` record is 4 bytes. -/
theorem u32Bytes_length (v : ℕ) : (u32Bytes v).length = 4 := rfl

/-- Reading exactly the prefix succeeds and leaves the tail. -/
theorem readBytes_append (n : ℕ) (msg : String) (pre rest : List ℕ) (h : pre.length = n) :
    readBytes n msg (pre ++ rest) = .ok (pre, rest) := by
  unfold readBytes
  rw [if_neg (by simp [h])]
  subst h
  rw [List.take_left, List.drop_left]

/-- `u32` write-then-read round trip. -/
theorem readU32_append (v : ℕ) (rest : List ℕ) (hv : v < 2^32) :
    readU32 (u32Bytes v ++ rest) = .ok (v, rest) := by
  unfold readU32
  rw [readBytes_append 4 _ _ _ (u32Bytes_length v)]
  simp only [u32Bytes, List.getD]
  show Except.ok (u32Of (v % 256) (v / 256 % 256) (v / 65536 % 256) (v / 16777216 % 256), rest)
    = Except.ok (v, rest)
  congr 1
  unfold u32Of
  have h32 : (2:ℕ)^32 = 4294967296 := by norm_num
  rw [h32] at hv
  congr 1
  omega

/-- `u8` write-then-read round trip. -/
theorem readU8_cons (b : ℕ) (rest : List ℕ) :
    readU8 (b :: rest) = .ok (b, rest) := by
  unfold readU8
  rw [show b :: rest = [b] ++ rest from rfl, readBytes_append 1 _ [b] rest rfl]
  rfl

/-- Float-array write-then-read round trip. -/
theorem readF32s_append (ws : List ℕ) (rest : List ℕ) (h : ∀ x ∈ ws, x < 2^32) :
    readF32s ws.length (ws.flatMap u32Bytes ++ rest) = .ok (ws, rest) := by
  induction ws with
  | nil => simp [readF32s]
  | cons w tl ih =>
    have htl := ih (fun x hx => h x (by simp [hx]))
    simp only [List.length_cons, List.flatMap_cons, List.append_assoc, readF32s,
      readBytes_append 4 _ _ _ (u32Bytes_length w), htl]
    have hw : w < 2^32 := h w (by simp)
    have h32 : (2:ℕ)^32 = 4294967296 := by norm_num
    rw [h32] at hw
    simp only [u32Bytes, List.getD_cons_zero, List.getD_cons_succ]
    unfold u32Of
    congr 3
    omega

/-- `readF32s` round trip stated with an abstract count. -/
theorem readF32s_append2 (count : ℕ) (ws rest : List ℕ) (hl : ws.length = count)
    (h : ∀ x ∈ ws, x < 2^32) :
    readF32s count (ws.flatMap u32Bytes ++ rest) = .ok (ws, rest) := by
  subst hl
  exact readF32s_append ws rest h

/-- `ModelParser::load`, one layer record: tag dispatch, constructor-time
validation (`std::invalid_argument` from the `Tensor`/layer constructors on
zero dimensions or strides), parameter reads, pool-stride normalization
(`stride == 0 ? kernel_size : stride`), and the unknown-tag
`std::runtime_error`. -/
def parseLayer (bs : List ℕ) : Except CppError (LayerSpec × List ℕ) :=
  match readU32 bs with
  | .error e => .error e
  | .ok (tag, r0) =>
    if tag = 1 then
      match readU32 r0 with
      | .error e => .error e
      | .ok (inF, r1) =>
        match readU32 r1 with
        | .error e => .error e
        | .ok (outF, r2) =>
          match readU8 r2 with
          | .error e => .error e
          | .ok (hb, r3) =>
            if inF = 0 ∨ outF = 0 then
              .error (.invalidArgument "Tensor shape dimension cannot be zero")
            else
              match readF32s (outF * inF) r3 with
              | .error e => .error e
              | .ok (w, r4) =>
                if hb ≠ 0 then
                  match readF32s outF r4 with
                  | .error e => .error e
                  | .ok (b, r5) => .ok (.dense inF outF true w b, r5)
                else .ok (.dense inF outF false w (List.replicate outF 0), r4)
    else if tag = 2 then .ok (.relu, r0)
    else if tag = 3 then .ok (.sigmoid, r0)
    else if tag = 4 then .ok (.tanh, r0)
    else if tag = 5 then .ok (.softmax, r0)
    else if tag = 6 then
      match readU32 r0 with
      | .error e => .error e
      | .ok (inC, r1) =>
        match readU32 r1 with
        | .error e => .error e
        | .ok (outC, r2) =>
          match readU32 r2 with
          | .error e => .error e
          | .ok (kH, r3) =>
            match readU32 r3 with
            | .error e => .error e
            | .ok (kW, r4) =>
              match readU32 r4 with
              | .error e => .error e
              | .ok (sH, r5) =>
                match readU32 r5 with
                | .error e => .error e
                | .ok (sW, r6) =>
                  match readU8 r6 with
                  | .error e => .error e
                  | .ok (pm, r7) =>
                    match readU8 r7 with
                    | .error e => .error e
                    | .ok (hb, r8) =>
                      if inC = 0 ∨ outC = 0 ∨ kH = 0 ∨ kW = 0 then
                        .error (.invalidArgument "Tensor shape dimension cannot be zero")
                      else if sH = 0 ∨ sW = 0 then
                        .error (.invalidArgument "Conv2DLayer: stride must be > 0")
                      else
                        match readF32s (outC * inC * kH * kW) r8 with
                        | .error e => .error e
                        | .ok (w, r9) =>
                          if hb ≠ 0 then
                            match readF32s outC r9 with
                            | .error e => .error e
                            | .ok (b, r10) =>
                              .ok (.conv2d inC outC kH kW sH sW (pm = 1) true w b, r10)
                          else
                            .ok (.conv2d inC outC kH kW sH sW (pm = 1) false w
                              (List.replicate outC 0), r9)
    else if tag = 7 then
      match readU32 r0 with
      | .error e => .error e
      | .ok (ks, r1) =>
        match readU32 r1 with
        | .error e => .error e
        | .ok (st, r2) =>
          match readU32 r2 with
          | .error e => .error e
          | .ok (pd, r3) =>
            if ks = 0 then .error (.invalidArgument "MaxPool2DLayer: kernel_size must be > 0")
            else .ok (.maxpool2d ks (if st = 0 then ks else st) pd, r3)
    else if tag = 8 then
      match readU32 r0 with
      | .error e => .error e
      | .ok (ks, r1) =>
        match readU32 r1 with
        | .error e => .error e
        | .ok (st, r2) =>
          match readU32 r2 with
          | .error e => .error e
          | .ok (pd, r3) =>
            if ks = 0 then .error (.invalidArgument "AvgPool2DLayer: kernel_size must be > 0")
            else .ok (.avgpool2d ks (if st = 0 then ks else st) pd, r3)
    else if tag = 9 then .ok (.flatten, r0)
    else .error (.runtimeError "ModelParser: unknown layer type ID")

/-- The parser's layer loop. -/
def parseLayers : ℕ → List ℕ → Except CppError (List LayerSpec × List ℕ)
  | 0, bs => .ok ([], bs)
  | n + 1, bs =>
    match parseLayer bs with
    | .error e => .error e
    | .ok (l, rest) =>
      match parseLayers n rest with
      | .error e => .error e
      | .ok (ls, rest2) => .ok (l :: ls, rest2)

/-- `ModelParser::load`: magic check, version check (`≤ 2`), layer count,
layer loop.  Trailing bytes are ignored, as in the C++. -/
def parseModel (bs : List ℕ) : Except CppError (List LayerSpec) :=
  if bs.length < 4 then
    .error (.runtimeError "ModelParser: unexpected end of file while reading header")
  else if bs.take 4 ≠ magicBytes then
    .error (.runtimeError "ModelParser: invalid magic number -- not a .titan file")
  else
    match readU32 (bs.drop 4) with
    | .error e => .error e
    | .ok (version, r1) =>
      if 2 < version then
        .error (.runtimeError "ModelParser: unsupported format version")
      else
        match readU32 r1 with
        | .error e => .error e
        | .ok (count, r2) =>
          match parseLayers count r2 with
          | .error e => .error e
          | .ok (ls, _) => .ok ls

/-- Invariants of an in-memory layer: constructor-enforced positivity,
parameter tensors of the declared shapes, `u32` fields and `f32` patterns
in range, zero bias when `use_bias` is off, normalized pool stride. -/
def wfLayer : LayerSpec → Prop
  | .dense inF outF hasBias w b =>
      0 < inF ∧ 0 < outF ∧ inF < 2^32 ∧ outF < 2^32 ∧
      w.length = outF * inF ∧ (∀ x ∈ w, x < 2^32) ∧
      (if hasBias then b.length = outF ∧ ∀ x ∈ b, x < 2^32
       else b = List.replicate outF 0)
  | .conv2d inC outC kH kW sH sW _ hasBias w b =>
      0 < inC ∧ 0 < outC ∧ 0 < kH ∧ 0 < kW ∧ 0 < sH ∧ 0 < sW ∧
      inC < 2^32 ∧ outC < 2^32 ∧ kH < 2^32 ∧ kW < 2^32 ∧ sH < 2^32 ∧ sW < 2^32 ∧
      w.length = outC * inC * kH * kW ∧ (∀ x ∈ w, x < 2^32) ∧
      (if hasBias then b.length = outC ∧ ∀ x ∈ b, x < 2^32
       else b = List.replicate outC 0)
  | .maxpool2d k s p => 0 < k ∧ 0 < s ∧ k < 2^32 ∧ s < 2^32 ∧ p < 2^32
  | .avgpool2d k s p => 0 < k ∧ 0 < s ∧ k < 2^32 ∧ s < 2^32 ∧ p < 2^32
  | _ => True

instance (l : LayerSpec) : Decidable (wfLayer l) := by
  cases l <;> (unfold wfLayer; infer_instance)

/-- A well-formed in-memory model: sane layer count and layers. -/
def wfModel (m : List LayerSpec) : Prop := m.length < 2^32 ∧ ∀ l ∈ m, wfLayer l

instance (m : List LayerSpec) : Decidable (wfModel m) := by
  unfold wfModel; infer_instance

/-- Per-layer round trip: parsing a serialized layer record returns the
layer and the remaining stream. -/
theorem parseLayer_serialize (l : LayerSpec) (rest : List ℕ) (h : wfLayer l) :
    parseLayer (serializeLayer l ++ rest) = .ok (l, rest) := by
  cases l with
  | relu =>
    simp [parseLayer, serializeLayer, readU32_append 2 rest (by norm_num)]
  | sigmoid =>
    simp [parseLayer, serializeLayer, readU32_append 3 rest (by norm_num)]
  | tanh =>
    simp [parseLayer, serializeLayer, readU32_append 4 rest (by norm_num)]
  | softmax =>
    simp [parseLayer, serializeLayer, readU32_append 5 rest (by norm_num)]
  | flatten =>
    simp [parseLayer, serializeLayer, readU32_append 9 rest (by norm_num)]
  | maxpool2d k s p =>
    obtain ⟨h1, h2, h3, h4, h5⟩ := h
    simp only [serializeLayer, List.append_assoc, List.singleton_append, List.cons_append, List.nil_append, parseLayer,
      readU32_append 7 _ (by norm_num), readU32_append k _ h3,
      readU32_append s _ h4, readU32_append p _ h5]
    norm_num
    rw [if_neg (by omega), if_neg (by omega)]
  | avgpool2d k s p =>
    obtain ⟨h1, h2, h3, h4, h5⟩ := h
    simp only [serializeLayer, List.append_assoc, List.singleton_append, List.cons_append, List.nil_append, parseLayer,
      readU32_append 8 _ (by norm_num), readU32_append k _ h3,
      readU32_append s _ h4, readU32_append p _ h5]
    norm_num
    rw [if_neg (by omega), if_neg (by omega)]
  | dense inF outF hasBias w b =>
    obtain ⟨h1, h2, h3, h4, h5, h6, h7⟩ := h
    cases hasBias with
    | true =>
      obtain ⟨hbl, hbe⟩ := h7
      simp only [serializeLayer, List.append_assoc, List.singleton_append, List.cons_append, List.nil_append, parseLayer, if_true,
        readU32_append 1 _ (by norm_num), readU32_append inF _ h3,
        readU32_append outF _ h4, readU8_cons,
        if_neg (show ¬(inF = 0 ∨ outF = 0) by omega),
        readF32s_append2 (outF * inF) w _ h5 h6,
        readF32s_append2 outF b _ hbl hbe]
      norm_num
    | false =>
      simp only [Bool.false_eq_true, if_false] at h7
      subst h7
      simp only [serializeLayer, List.append_assoc, List.singleton_append, List.cons_append, List.nil_append, parseLayer,
        Bool.false_eq_true, if_false, List.append_nil,
        readU32_append 1 _ (by norm_num), readU32_append inF _ h3,
        readU32_append outF _ h4, readU8_cons,
        if_neg (show ¬(inF = 0 ∨ outF = 0) by omega),
        readF32s_append2 (outF * inF) w _ h5 h6]
      norm_num
  | conv2d inC outC kH kW sH sW same hasBias w b =>
    obtain ⟨h1, h2, h3, h4, h5, h6, g1, g2, g3, g4, g5, g6, hwl, hwe, h7⟩ := h
    cases hasBias with
    | true =>
      obtain ⟨hbl, hbe⟩ := h7
      cases same with
      | true =>
        simp only [serializeLayer, List.append_assoc, List.singleton_append, List.cons_append, List.nil_append, parseLayer, if_true,
          readU32_append 6 _ (by norm_num), readU32_append inC _ g1,
          readU32_append outC _ g2, readU32_append kH _ g3,
          readU32_append kW _ g4, readU32_append sH _ g5,
          readU32_append sW _ g6, readU8_cons,
          if_neg (show ¬(inC = 0 ∨ outC = 0 ∨ kH = 0 ∨ kW = 0) by omega),
          if_neg (show ¬(sH = 0 ∨ sW = 0) by omega),
          readF32s_append2 (outC * inC * kH * kW) w _ hwl hwe,
          readF32s_append2 outC b _ hbl hbe]
        norm_num
      | false =>
        simp only [serializeLayer, List.append_assoc, List.singleton_append, List.cons_append, List.nil_append, parseLayer, if_true,
          Bool.false_eq_true, if_false,
          readU32_append 6 _ (by norm_num), readU32_append inC _ g1,
          readU32_append outC _ g2, readU32_append kH _ g3,
          readU32_append kW _ g4, readU32_append sH _ g5,
          readU32_append sW _ g6, readU8_cons,
          if_neg (show ¬(inC = 0 ∨ outC = 0 ∨ kH = 0 ∨ kW = 0) by omega),
          if_neg (show ¬(sH = 0 ∨ sW = 0) by omega),
          readF32s_append2 (outC * inC * kH * kW) w _ hwl hwe,
          readF32s_append2 outC b _ hbl hbe]
        norm_num
    | false =>
      simp only [Bool.false_eq_true, if_false] at h7
      subst h7
      cases same with
      | true =>
        simp only [serializeLayer, List.append_assoc, List.singleton_append, List.cons_append, List.nil_append, parseLayer, if_true,
          Bool.false_eq_true, if_false, List.append_nil,
          readU32_append 6 _ (by norm_num), readU32_append inC _ g1,
          readU32_append outC _ g2, readU32_append kH _ g3,
          readU32_append kW _ g4, readU32_append sH _ g5,
          readU32_append sW _ g6, readU8_cons,
          if_neg (show ¬(inC = 0 ∨ outC = 0 ∨ kH = 0 ∨ kW = 0) by omega),
          if_neg (show ¬(sH = 0 ∨ sW = 0) by omega),
          readF32s_append2 (outC * inC * kH * kW) w _ hwl hwe]
        norm_num
      | false =>
        simp only [serializeLayer, List.append_assoc, List.singleton_append, List.cons_append, List.nil_append, parseLayer,
          Bool.false_eq_true, if_false, List.append_nil,
          readU32_append 6 _ (by norm_num), readU32_append inC _ g1,
          readU32_append outC _ g2, readU32_append kH _ g3,
          readU32_append kW _ g4, readU32_append sH _ g5,
          readU32_append sW _ g6, readU8_cons,
          if_neg (show ¬(inC = 0 ∨ outC = 0 ∨ kH = 0 ∨ kW = 0) by omega),
          if_neg (show ¬(sH = 0 ∨ sW = 0) by omega),
          readF32s_append2 (outC * inC * kH * kW) w _ hwl hwe]
        norm_num

/-- Layer-loop round trip. -/
theorem parseLayers_serialize (m : List LayerSpec) (rest : List ℕ)
    (h : ∀ l ∈ m, wfLayer l) :
    parseLayers m.length (m.flatMap serializeLayer ++ rest) = .ok (m, rest) := by
  induction m with
  | nil => simp [parseLayers]
  | cons l tl ih =>
    simp only [List.length_cons, List.flatMap_cons, List.append_assoc, parseLayers,
      parseLayer_serialize l _ (h l (by simp)),
      ih (fun x hx => h x (by simp [hx]))]

/-- Layer-loop round trip with nothing after the records. -/
theorem parseLayers_serialize_nil (m : List LayerSpec) (h : ∀ l ∈ m, wfLayer l) :
    parseLayers m.length (m.flatMap serializeLayer) = .ok (m, []) := by
  have h2 := parseLayers_serialize m [] h
  rwa [List.append_nil] at h2

/-- Whole-model round trip: `load (save m) = m`. -/
theorem parseModel_serialize (m : List LayerSpec) (h : wfModel m) :
    parseModel (serializeModel m) = .ok m := by
  obtain ⟨hlen, hl⟩ := h
  have htake : (magicBytes ++ (u32Bytes 2 ++ (u32Bytes m.length ++ m.flatMap serializeLayer))).take 4
      = magicBytes := by
    rw [show (4:ℕ) = magicBytes.length from rfl, List.take_left]
  have hdrop : (magicBytes ++ (u32Bytes 2 ++ (u32Bytes m.length ++ m.flatMap serializeLayer))).drop 4
      = u32Bytes 2 ++ (u32Bytes m.length ++ m.flatMap serializeLayer) := by
    rw [show (4:ℕ) = magicBytes.length from rfl, List.drop_left]
  simp only [serializeModel, parseModel, List.append_assoc,
    if_neg (show ¬ (magicBytes ++ (u32Bytes 2 ++ (u32Bytes m.length ++ m.flatMap serializeLayer))).length < 4
      by simp [magicBytes]),
    if_neg (show ¬ (magicBytes ++ (u32Bytes 2 ++ (u32Bytes m.length ++ m.flatMap serializeLayer))).take 4
        ≠ magicBytes from fun hc => hc htake),
    hdrop, readU32_append 2 _ (by norm_num),
    if_neg (show ¬ (2:ℕ) < 2 by norm_num),
    readU32_append m.length _ hlen,
    parseLayers_serialize_nil m hl]

/-- `titaninfer::ErrorCode` (error-taxonomy header). -/
inductive ErrorCode where
  | FILE_NOT_FOUND
  | INVALID_FORMAT
  | EMPTY_MODEL
  | NO_MODEL_LOADED
  | SHAPE_MISMATCH
  | NAN_INPUT
  | INTERNAL_ERROR
  | UNKNOWN
  deriving DecidableEq

/-- `InferenceEngine::load_model` input-shape inference: the first
`DenseLayer`'s `in_features`. -/
def firstDenseIn : List LayerSpec → Option ℕ
  | [] => none
  | .dense inF _ _ _ _ :: _ => some inF
  | _ :: tl => firstDenseIn tl

/-- `ModelParser::load` including the file open: a missing file throws
`std::runtime_error` (`cannot open file`). -/
def parserLoad : Option (List ℕ) → Except CppError (List LayerSpec)
  | none => .error (.runtimeError "ModelParser: cannot open file for reading")
  | some bs => parseModel bs

/-- `InferenceEngine::load_model`: parse, empty-model check, input-shape
inference.  Buffer pre-allocation is omitted: it runs only after a
successful parse and never on any failure path modelled here. -/
def engineLoadModel (file : Option (List ℕ)) (inputShape : List ℕ) :
    Except CppError (List LayerSpec × List ℕ) :=
  match parserLoad file with
  | .error e => .error e
  | .ok m =>
    if m = [] then .error (.runtimeError "InferenceEngine: loaded model has no layers")
    else if inputShape ≠ [] then .ok (m, inputShape)
    else
      match firstDenseIn m with
      | some n => .ok (m, [n])
      | none => .error (.runtimeError "InferenceEngine: cannot infer input shape")

/-- `ModelHandle::Builder::build`: empty path → `FILE_NOT_FOUND`;
`std::invalid_argument` → `INVALID_FORMAT`; `std::runtime_error` →
`FILE_NOT_FOUND` (the catch clauses at src/src/model_handle.cpp:71-75). -/
def handleBuild (pathSet : Bool) (file : Option (List ℕ)) (inputShape : List ℕ) :
    Except (ErrorCode × String) (List LayerSpec × List ℕ) :=
  if ¬ pathSet then
    .error (.FILE_NOT_FOUND, "ModelHandle::Builder::build: model path not set")
  else
    match engineLoadModel file inputShape with
    | .ok e => .ok e
    | .error (.invalidArgument m) => .error (.INVALID_FORMAT, m)
    | .error (.runtimeError m) => .error (.FILE_NOT_FOUND, m)

/-- The error kind `build` reports, if any. -/
def buildErrorCode (pathSet : Bool) (file : Option (List ℕ)) (inputShape : List ℕ) :
    Option ErrorCode :=
  match handleBuild pathSet file inputShape with
  | .error (c, _) => some c
  | .ok _ => none

/-- Classify a parse result by exception class:
`some true` = `std::runtime_error`, `some false` = `std::invalid_argument`. -/
def errClass : Except CppError (List LayerSpec) → Option Bool
  | .error (.runtimeError _) => some true
  | .error (.invalidArgument _) => some false
  | .ok _ => none

/-- A file whose magic is `XXXX`. -/
def badMagicFile : List ℕ := [88, 88, 88, 88]

/-- A file with valid magic but unsupported version 3. -/
def badVersionFile : List ℕ := magicBytes ++ u32Bytes 3

/-- A file announcing one layer with unknown type tag 99. -/
def unknownTagFile : List ℕ := magicBytes ++ u32Bytes 2 ++ u32Bytes 1 ++ u32Bytes 99

/-- The spec's truncated file: magic, version 1, one Dense(4,3) with bias,
but only 2 of 12 weight floats. -/
def truncatedFile : List ℕ :=
  magicBytes ++ u32Bytes 1 ++ u32Bytes 1 ++ u32Bytes 1 ++ u32Bytes 4 ++ u32Bytes 3
    ++ [1] ++ u32Bytes 1065353216 ++ u32Bytes 1073741824

/-- **C4, counterexample.** A file with bad magic is rejected with kind
`FILE_NOT_FOUND`, not `INVALID_FORMAT` as claimed: the parser throws
`std::runtime_error` for bad magic / version / tag / truncation, and
`build` maps every `runtime_error` to `FILE_NOT_FOUND`. -/
theorem c4_counterexample :
    buildErrorCode true (some badMagicFile) [4] = some ErrorCode.FILE_NOT_FOUND ∧
    buildErrorCode true (some badMagicFile) [4] ≠ some ErrorCode.INVALID_FORMAT := by
  constructor
  · rfl
  · decide

/-- **C4, amended.** A missing path yields `ModelLoad/FILE_NOT_FOUND`; a
file with bad magic, unsupported version, unknown layer tag or a truncated
record *also* yields `FILE_NOT_FOUND`, because all these parser failures
are `std::runtime_error` and `build` maps that class to `FILE_NOT_FOUND`;
`INVALID_FORMAT` is produced exactly for `std::invalid_argument`
(constructor-level validation such as a zero-dimension Dense record). -/
theorem c4_amended :
    (buildErrorCode true none [4] = some ErrorCode.FILE_NOT_FOUND)
    ∧ (∀ bs : List ℕ, errClass (parseModel bs) = some true →
        buildErrorCode true (some bs) [4] = some ErrorCode.FILE_NOT_FOUND)
    ∧ (∀ bs : List ℕ, errClass (parseModel bs) = some false →
        buildErrorCode true (some bs) [4] = some ErrorCode.INVALID_FORMAT)
    ∧ errClass (parseModel badMagicFile) = some true
    ∧ errClass (parseModel badVersionFile) = some true
    ∧ errClass (parseModel unknownTagFile) = some true
    ∧ errClass (parseModel truncatedFile) = some true := by
  refine ⟨rfl, ?_, ?_, by decide, by decide, by decide, by decide⟩
  · intro bs hcl
    cases hp : parseModel bs with
    | error e =>
      cases e with
      | runtimeError msg =>
        simp [buildErrorCode, handleBuild, engineLoadModel, parserLoad, hp]
      | invalidArgument msg =>
        rw [hp] at hcl
        simp [errClass] at hcl
    | ok m =>
      rw [hp] at hcl
      simp [errClass] at hcl
  · intro bs hcl
    cases hp : parseModel bs with
    | error e =>
      cases e with
      | invalidArgument msg =>
        simp [buildErrorCode, handleBuild, engineLoadModel, parserLoad, hp]
      | runtimeError msg =>
        rw [hp] at hcl
        simp [errClass] at hcl
    | ok m =>
      rw [hp] at hcl
      simp [errClass] at hcl

/-- **C4, witness**: the bad-magic file takes the `runtime_error` path. -/
theorem c4_amended_witness :
    buildErrorCode true (some badMagicFile) [4] = some ErrorCode.FILE_NOT_FOUND :=
  c4_amended.2.1 badMagicFile (by decide)

/-- **C1.** For every well-formed model of serializable layers,
`load (save m)` returns exactly `m` — same layer sequence, same
hyper-parameters, bit-identical weights and biases — and therefore every
forward interpretation gives identical outputs on every input. -/
theorem serialize_parse_roundtrip (m : List LayerSpec) (h : wfModel m) :
    parseModel (serializeModel m) = Except.ok m
    ∧ ∀ (forward : List LayerSpec → List ℚ → List ℚ) (x : List ℚ),
        (parseModel (serializeModel m)).map (fun mm => forward mm x)
          = Except.ok (forward m x) := by
  have hm := parseModel_serialize m h
  exact ⟨hm, fun forward x => by rw [hm]; rfl⟩

/-- **C1, witness**: a 9-layer model exercising every serializable layer
type round-trips bit-exactly. -/
theorem serialize_parse_roundtrip_witness :
    parseModel (serializeModel [LayerSpec.dense 2 1 true [7, 9] [4], LayerSpec.relu,
      LayerSpec.conv2d 1 1 1 1 1 1 true false [5] [0], LayerSpec.maxpool2d 2 2 0,
      LayerSpec.avgpool2d 2 2 1, LayerSpec.flatten, LayerSpec.sigmoid, LayerSpec.tanh,
      LayerSpec.softmax])
      = Except.ok [LayerSpec.dense 2 1 true [7, 9] [4], LayerSpec.relu,
      LayerSpec.conv2d 1 1 1 1 1 1 true false [5] [0], LayerSpec.maxpool2d 2 2 0,
      LayerSpec.avgpool2d 2 2 1, LayerSpec.flatten, LayerSpec.sigmoid, LayerSpec.tanh,
      LayerSpec.softmax] :=
  (serialize_parse_roundtrip _ (by decide)).1

/- ================================================================
   §8  Inference engine predict — src/src/engine/inference_engine.cpp
   ================================================================ -/

/-- Whether a call raised (any) exception. -/
def isErr {α : Type} : Except CppError α → Bool
  | .error _ => true
  | .ok _ => false

/-- `InferenceEngine` mutable state: model presence, layer count, declared
input shape, the pre-allocated per-layer buffers and the profiling
accumulator's inference count (wall-clock latencies are real time and are
not modelled).  The layer dispatch `model_->layer(i).forward` is abstracted
as a function `fw : ℕ → List ℚ → List ℚ`, which each concrete layer's
forward (each overwrites its whole output buffer) refines. -/
structure EngineState where
  modelLoaded : Bool
  nlayers : ℕ
  inputShape : List ℕ
  buffers : List (List ℚ)
  profilingEnabled : Bool
  inferenceCount : ℕ

/-- `InferenceEngine::validate_input`: rank check, shape check, NaN scan
(`none` marks a NaN element), each throwing `std::invalid_argument`
*before* any engine state is touched. -/
def validate_input (s : EngineState) (shape : List ℕ) (data : List (Option ℚ)) :
    Except CppError Unit :=
  if shape.length ≠ s.inputShape.length then
    .error (.invalidArgument "InferenceEngine: unexpected input dimensionality")
  else if shape ≠ s.inputShape then
    .error (.invalidArgument "InferenceEngine: unexpected input shape")
  else if data.any (fun v => v.isNone) then
    .error (.invalidArgument "InferenceEngine: input contains NaN")
  else .ok ()

/-- The predict loop: buffer `0` is `fw 0 input`, buffer `i` is
`fw i` of buffer `i-1`. -/
def runLayersAux (fw : ℕ → List ℚ → List ℚ) : ℕ → ℕ → List ℚ → List (List ℚ)
  | 0, _, _ => []
  | Nat.succ k, i, cur =>
    let nxt := fw i cur
    nxt :: runLayersAux fw k (i + 1) nxt

/-- `InferenceEngine::predict`: no-model check (`std::runtime_error`),
validation, then layer execution over the buffers, profiling update, and a
deep copy of the last buffer as result.  On every failure path the state is
returned untouched, mirroring that the C++ throws before any mutation. -/
def predict (fw : ℕ → List ℚ → List ℚ) (s : EngineState) (shape : List ℕ)
    (data : List (Option ℚ)) : Except CppError (List ℚ) × EngineState :=
  if ¬ s.modelLoaded then
    (.error (.runtimeError "InferenceEngine::predict: no model loaded"), s)
  else
    match validate_input s shape data with
    | .error e => (.error e, s)
    | .ok _ =>
      let input := data.map (fun v => v.getD 0)
      let bufs := runLayersAux fw s.nlayers 0 input
      (.ok (bufs.getLastD []),
       { s with buffers := bufs,
                inferenceCount :=
                  if s.profilingEnabled then s.inferenceCount + 1 else s.inferenceCount })

/-- **C6.** A failed predict (no model, shape mismatch, NaN input) leaves
the engine state exactly as it was, so every subsequent predict behaves as
if the failed call never happened; moreover a predict's *result* never
depends on the buffer contents or profiling counter — the only state a
call mutates. -/
theorem predict_failure_preserves_state (fw : ℕ → List ℚ → List ℚ) (s : EngineState)
    (shape : List ℕ) (data : List (Option ℚ))
    (h : isErr (predict fw s shape data).1 = true) :
    (predict fw s shape data).2 = s
    ∧ (∀ (shape2 : List ℕ) (data2 : List (Option ℚ)),
        predict fw ((predict fw s shape data).2) shape2 data2 = predict fw s shape2 data2)
    ∧ (∀ (bufs : List (List ℚ)) (n : ℕ) (shape2 : List ℕ) (data2 : List (Option ℚ)),
        (predict fw { s with buffers := bufs, inferenceCount := n } shape2 data2).1
          = (predict fw s shape2 data2).1) := by
  have hstate : (predict fw s shape data).2 = s := by
    unfold predict
    by_cases hm : s.modelLoaded
    · simp only [hm, not_true, if_false]
      cases hv : validate_input s shape data with
      | error e => rfl
      | ok u =>
        exfalso
        unfold predict at h
        simp only [hm, not_true, if_false, hv] at h
        simp [isErr] at h
    · simp [hm]
  refine ⟨hstate, fun shape2 data2 => by rw [hstate], ?_⟩
  intro bufs n shape2 data2
  unfold predict
  by_cases hm : s.modelLoaded
  · have hm2 : ({ s with buffers := bufs, inferenceCount := n } : EngineState).modelLoaded = true := hm
    rw [if_neg (not_not_intro hm2), if_neg (not_not_intro hm)]
    have hv : validate_input { s with buffers := bufs, inferenceCount := n } shape2 data2
        = validate_input s shape2 data2 := rfl
    rw [hv]
    cases validate_input s shape2 data2 with
    | error e => rfl
    | ok u => rfl
  · have hm2 : ({ s with buffers := bufs, inferenceCount := n } : EngineState).modelLoaded = s.modelLoaded := rfl
    simp [hm, hm2]

/-- **C6, witness**: a shape-mismatched input (`[3]` against declared
`[2]`) fails and leaves the state unchanged. -/
theorem predict_failure_preserves_state_witness :
    (predict (fun _ l => l) (EngineState.mk true 1 [2] [[0, 0]] false 0) [3]
      [some 1, some 2, some 3]).2 = EngineState.mk true 1 [2] [[0, 0]] false 0 :=
  (predict_failure_preserves_state (fun _ l => l)
    (EngineState.mk true 1 [2] [[0, 0]] false 0) [3] [some 1, some 2, some 3] (by decide)).1

end TitanInfer
